import Mathlib

/-!
Verification of the ParallelDownload repository (src/down.go) against its
natural-language specification.

The Go code is shallowly embedded: pure computations become Lean functions on
`Int` (Go `int64`; the inputs reachable in the program stay far from the
64-bit bounds, and overflow-free usage is noted where relevant), effectful
steps (HTTP responses, `Read`/`WriteAt` results, context cancellation) become
explicit input data, and Go runtime panics are modelled by `Option.none`.
-/

namespace ParallelDownload

/-- One byte range assigned to a worker: inclusive `start` and inclusive end
offset (`stop` here; `end` is a Lean keyword).  These are exactly the
`tempStart, tempEnd-1` arguments passed to `writeRange` in
`ParallelDownload` (src/down.go line 110). -/
structure RangeSpec where
  start : Int
  stop : Int
deriving Repr, DecidableEq

/-- The partition loop of `ParallelDownload` (src/down.go lines 100-113),
with the remaining iteration count as fuel: iteration `num` of
`for num := 0; num < worker.Count; num++` corresponds to fuel `k` with
`k = Count - num`, so `k = 1` is the last iteration (`num == worker.Count-1`),
where the exclusive end is set to `file_size` instead of `start + partial_size`.
Each iteration emits the inclusive range `[start, end-1]` handed to
`writeRange` and continues with `start = end`. -/
def partitionFrom (fileSize partialSize : Int) : Int → Nat → List RangeSpec
  | _, 0 => []
  | start, k + 1 =>
    let e := if k = 0 then fileSize else start + partialSize
    { start := start, stop := e - 1 } :: partitionFrom fileSize partialSize e k

/-- Lines 98-113 of src/down.go: `partial_size = file_size / worker_count`
(Go truncated `int64` division, `Int.tdiv`) followed by the partition loop
starting at `start = 0`.  `none` models the Go runtime panic raised by
integer division by zero when `worker_count = 0`; for negative
`worker_count` the loop body never runs (`0 < worker.Count` fails), which is
`toNat = 0` fuel. -/
def parallelDownloadRanges (fileSize workerCount : Int) : Option (List RangeSpec) :=
  if workerCount = 0 then none
  else some (partitionFrom fileSize (Int.tdiv fileSize workerCount) 0 workerCount.toNat)

/-- Membership of a byte offset in an inclusive range. -/
def inRange (r : RangeSpec) (x : Int) : Prop := r.start ≤ x ∧ x ≤ r.stop

instance (r : RangeSpec) (x : Int) : Decidable (inRange r x) :=
  inferInstanceAs (Decidable (And _ _))

/-- A Go `http.Header` (`map[string][]string`), embedded as an association
list from canonical header key to the list of values.  `List.lookup` models
map indexing; an absent key yields `none` (Go: the `nil` slice). -/
abbrev Header := List (String × List String)

/-- Value of a decimal digit character, `none` otherwise. -/
def digitVal (c : Char) : Option Nat :=
  if 48 ≤ c.toNat && c.toNat ≤ 57 then some (c.toNat - 48) else none

/-- Accumulate a run of decimal digits; fails on any non-digit. -/
def digitsVal : List Char → Nat → Option Nat
  | [], acc => some acc
  | c :: cs, acc =>
    match digitVal c with
    | none => none
    | some d => digitsVal cs (acc * 10 + d)

/-- A non-empty all-digit run. -/
def parseDigits (cs : List Char) : Option Nat :=
  match cs with
  | [] => none
  | _ => digitsVal cs 0

/-- Go `strconv.ParseInt(s, 10, 64)`: optional sign, at least one decimal
digit, magnitude within the `int64` window; `none` models a non-nil `err`. -/
def parseInt64 (s : String) : Option Int :=
  match s.data with
  | [] => none
  | '+' :: rest =>
    (parseDigits rest).bind (fun n => if n ≤ 2 ^ 63 - 1 then some (n : Int) else none)
  | '-' :: rest =>
    (parseDigits rest).bind (fun n => if n ≤ 2 ^ 63 then some (-(n : Int)) else none)
  | l => (parseDigits l).bind (fun n => if n ≤ 2 ^ 63 - 1 then some (n : Int) else none)

/-- The `(size, header, err)` value returned by `getInfoAndCheckRangeSupport`
(src/down.go lines 182-211), with one constructor per distinct `return`. -/
inductive ProbeResult where
  /-- `return` with `err = nil`: size parsed and `Accept-Ranges: bytes`. -/
  | ok (size : Int) (header : Header)
  /-- `errors.New("get file size failed")`: no Content-Length key. -/
  | errNoLength (header : Header)
  /-- `fmt.Errorf("get file size error: %w", err)`: Content-Length did not parse. -/
  | errParse (header : Header)
  /-- `errors.New("doesn't support header Accept-Ranges")`: no Accept-Ranges key. -/
  | errNoAcceptRanges (size : Int) (header : Header)
  /-- `errors.New("support Accept-Ranges, but value is not bytes")`. -/
  | errNotBytes (size : Int) (header : Header)
deriving Repr, DecidableEq

/-- Whether the probe returned a non-nil Go `error`. -/
def ProbeResult.isError : ProbeResult → Bool
  | .ok _ _ => false
  | _ => true

/-- `getInfoAndCheckRangeSupport` (src/down.go lines 182-211), after the
transport has delivered a response with header `h`.  The outer `none` models
a Go index-out-of-range panic: the code indexes `header["Content-Length"][0]`
and `accept_ranges[0]` after only a key-presence check, so a present key with
an empty value slice would panic (Go's net/http never stores one). -/
def getInfoAndCheckRangeSupport (h : Header) : Option ProbeResult :=
  match h.lookup "Content-Length" with
  | none => some (ProbeResult.errNoLength h)
  | some [] => none
  | some (v :: _) =>
    match parseInt64 v with
    | none => some (ProbeResult.errParse h)
    | some size =>
      match h.lookup "Accept-Ranges" with
      | none => some (ProbeResult.errNoAcceptRanges size h)
      | some [] => none
      | some (a :: _) =>
        if a ≠ "bytes" then some (ProbeResult.errNotBytes size h)
        else some (ProbeResult.ok size h)

/-- Which path `ParallelDownload` (src/down.go lines 70-84) takes after the
probe, before any worker is spawned. -/
inductive Dispatch where
  /-- `err != nil` from the probe: `return Download(download_url, savePath, filename)`. -/
  | fallback
  /-- `file_size <= 0`: `return errors.New("get file size failed")` (a non-nil error). -/
  | sizeError
  /-- proceed to open the file and run the partition loop with this size. -/
  | parallel (size : Int)
  /-- a Go runtime panic inside the probe. -/
  | panic
deriving Repr, DecidableEq

/-- Lines 71-84 of src/down.go: any probe error at all — including an
undeterminable length — falls back to the sequential `Download`; only a fully
successful probe with positive size reaches the parallel path. -/
def parallelDownloadDispatch (h : Header) : Dispatch :=
  match getInfoAndCheckRangeSupport h with
  | none => Dispatch.panic
  | some (ProbeResult.ok size _) =>
    if size ≤ 0 then Dispatch.sizeError else Dispatch.parallel size
  | some _ => Dispatch.fallback

/-- How a `body.Read` call ended, when it returned a non-nil error. -/
inductive ReadEnd where
  | eof
  | ioErr
deriving Repr, DecidableEq

/-- The environment of one iteration of the `writeRange` loop (src/down.go
lines 130-161): the context state observed by the `select`, the `(nr, err2)`
pair produced by `body.Read(buf)`, and the `(nw, err)` pair `w.File.WriteAt`
would produce for this chunk. -/
structure Step where
  ctxDone : Bool
  nr : Nat
  readErr : Option ReadEnd
  nw : Nat
  writeFail : Bool
deriving Repr, DecidableEq

/-- The distinct non-nil errors `writeRange` can return from its loop, plus
the request error from `getRangeBody`; each Go error string names the part. -/
inductive ErrKind where
  /-- `fmt.Errorf("part %d request error: %w", ...)`. -/
  | request
  /-- `fmt.Errorf("part %d write error: %w", ...)`: `WriteAt` returned an error. -/
  | writeAt
  /-- `fmt.Errorf("part %d write error: short write")`: `nr != nw`. -/
  | shortWrite
  /-- `fmt.Errorf("part %d download error: size not match")`. -/
  | sizeMismatch
  /-- `fmt.Errorf("part %d download error: %w", part_num, err2)`: non-EOF read error. -/
  | stream
deriving Repr, DecidableEq

/-- A non-nil `error` value returned by a worker, carrying the part index
that every `fmt.Errorf` format string in `writeRange` embeds. -/
structure WErr where
  part : Int
  kind : ErrKind
deriving Repr, DecidableEq

/-- One positioned write `w.File.WriteAt(buf[0:nr], start)`: `len` bytes
aimed at file offsets `[off, off+len)`. -/
structure FileWrite where
  off : Int
  len : Nat
deriving Repr, DecidableEq

/-- `written` after one iteration (src/down.go lines 145-148): it grows by
`nw` only when a chunk was read (`nr > 0`) and `nw > 0`. -/
def writtenAfter (written : Int) (s : Step) : Int :=
  if s.nr > 0 && s.nw > 0 then written + (s.nw : Int) else written

/-- The `for` loop of `writeRange` (src/down.go lines 130-161) over a script
of per-iteration environments, returning the loop's Go `error` result paired
with the positioned writes it issued.  The result is `some e` when the loop
returned with error value `e` (`some none` is a `return nil`), and `none`
when the script ran out before the loop returned.  Faithfully to the code:
a done context returns plain `nil` before reading; a chunk with `nr > 0` is
written at the current `start` before `err2` is examined; `start` advances by
`nw`; at EOF the total `written` is compared with `size`, the Content-Length
that `getRangeBody` parsed from the range response. -/
def writeLoop (part size : Int) : Int → Int → List Step → Option (Option WErr) × List FileWrite
  | _, _, [] => (none, [])
  | start, written, s :: rest =>
    if s.ctxDone then (some none, [])
    else if 0 < s.nr then
      if s.writeFail then
        (some (some { part := part, kind := ErrKind.writeAt }),
         [{ off := start, len := s.nr }])
      else if s.nr ≠ s.nw then
        (some (some { part := part, kind := ErrKind.shortWrite }),
         [{ off := start, len := s.nr }])
      else
        match s.readErr with
        | some ReadEnd.eof =>
          (if size = writtenAfter written s then some none
           else some (some { part := part, kind := ErrKind.sizeMismatch }),
           [{ off := start, len := s.nr }])
        | some ReadEnd.ioErr =>
          (some (some { part := part, kind := ErrKind.stream }),
           [{ off := start, len := s.nr }])
        | none =>
          let res := writeLoop part size ((s.nw : Int) + start) (writtenAfter written s) rest
          (res.1, { off := start, len := s.nr } :: res.2)
    else
      match s.readErr with
      | some ReadEnd.eof =>
        (if size = writtenAfter written s then some none
         else some (some { part := part, kind := ErrKind.sizeMismatch }), [])
      | some ReadEnd.ioErr =>
        (some (some { part := part, kind := ErrKind.stream }), [])
      | none => writeLoop part size start written rest

/-- The Content-Length extraction in `getRangeBody` (src/down.go line 178):
`strconv.ParseInt(resp.Header["Content-Length"][0], 10, 64)` with no presence
or non-emptiness check.  The outer `none` models the Go index-out-of-range
panic when the range response has no Content-Length value; the inner option
is the `ParseInt` result (its error is returned to `writeRange`). -/
def getRangeBodySize (h : Header) : Option (Option Int) :=
  match h.lookup "Content-Length" with
  | none => none
  | some [] => none
  | some (v :: _) => some (parseInt64 v)

/-- `writeRange` (src/down.go lines 121-162): obtain the range body — a panic
in `getRangeBody` is the outer `none`, a `ParseInt` error becomes the
`part %d request error` return — then run the loop with the parsed size. -/
def writeRange (part start : Int) (h : Header) (script : List Step) :
    Option (Option (Option WErr) × List FileWrite) :=
  match getRangeBodySize h with
  | none => none
  | some none => some (some (some { part := part, kind := ErrKind.request }), [])
  | some (some size) => some (writeLoop part size start 0 script)

/-- A positioned write lies inside the inclusive offset interval `[lo, hi]`. -/
def writeWithin (w : FileWrite) (lo hi : Int) : Prop :=
  lo ≤ w.off ∧ w.off + (w.len : Int) ≤ hi + 1

instance (w : FileWrite) (lo hi : Int) : Decidable (writeWithin w lo hi) :=
  inferInstanceAs (Decidable (And _ _))

/-- Total number of bytes the body stream delivers over a script. -/
def chunkTotal (script : List Step) : Int :=
  ((script.map Step.nr).sum : Nat)

/-- Modelled behaviour of `errgroup.Wait` from golang.org/x/sync, which
`ParallelDownload` (src/down.go lines 90-117) relies on: `Wait` blocks until
every goroutine started with `Go` has returned — so the argument is the full
list of worker return values, in completion order — and returns the first
non-nil error among them (nil when there is none).  `ParallelDownload`
returns this value unchanged (lines 114-118). -/
def errgroupWait (results : List (Option WErr)) : Option WErr :=
  results.foldl (fun acc r => match acc with | some e => some e | none => r) none

theorem partitionFrom_length (s p : Int) :
    ∀ (k : Nat) (st : Int), (partitionFrom s p st k).length = k
  | 0, _ => rfl
  | k + 1, st => by
    simp [partitionFrom, partitionFrom_length s p k]

/-- Closed form of the partition loop: element `j` (of `k` remaining) starting
from offset `st` is `[st + j*p, st + (j+1)*p - 1]`, except that the final
element ends at `s - 1`. -/
theorem partitionFrom_getElem (s p : Int) :
    ∀ (k : Nat) (st : Int) (j : Nat), j < k →
      (partitionFrom s p st k)[j]? =
        some { start := st + (j : Int) * p,
               stop := if j + 1 = k then s - 1 else st + ((j : Int) + 1) * p - 1 }
  | 0, _, j, hj => absurd hj (Nat.not_lt_zero j)
  | k + 1, st, 0, _ => by
    rcases Nat.eq_zero_or_pos k with hk | hk
    · subst hk
      simp [partitionFrom]
    · have hne : ¬ (0 + 1 = k + 1) := by omega
      simp only [partitionFrom, List.getElem?_cons_zero, if_neg (by omega : ¬ k = 0),
        if_neg hne, Nat.cast_zero]
      congr 2 <;> ring
  | k + 1, st, j + 1, hj => by
    have hk : 0 < k := by omega
    have ih := partitionFrom_getElem s p k (st + p) j (by omega)
    simp only [partitionFrom, List.getElem?_cons_succ, if_neg (by omega : ¬ k = 0)]
    rw [ih]
    congr 2
    · push_cast; ring
    · by_cases h : j + 1 = k
      · simp only [if_pos h, if_pos (by omega : j + 1 + 1 = k + 1)]
      · simp only [if_neg h, if_neg (by omega : ¬ j + 1 + 1 = k + 1)]
        push_cast; ring

/-- C1: Partition correctness.  For every `size > 0` and `workerCount ≥ 1`
the partition loop of `ParallelDownload` runs without panic and produces
exactly `workerCount` ranges that start at 0, end at `size - 1`, are
contiguous (`start(i+1) = end(i) + 1`) and pairwise non-overlapping, whose
union covers exactly `[0, size)`, every non-last range having the common
length `size / workerCount` so the last range absorbs the remainder. -/
theorem C1_partition_correct (size wc : Int) (hs : 0 < size) (hw : 1 ≤ wc) :
    ∃ rs, parallelDownloadRanges size wc = some rs ∧
      rs.length = wc.toNat ∧
      (∀ r0, rs[0]? = some r0 → r0.start = 0) ∧
      (∀ rl, rs[wc.toNat - 1]? = some rl → rl.stop = size - 1) ∧
      (∀ (j : Nat) (r r2 : RangeSpec),
        rs[j]? = some r → rs[j + 1]? = some r2 → r2.start = r.stop + 1) ∧
      (∀ (i j : Nat) (ri rj : RangeSpec) (x : Int), i < j →
        rs[i]? = some ri → rs[j]? = some rj →
        inRange ri x → ¬ inRange rj x) ∧
      (∀ x : Int, (∃ r ∈ rs, inRange r x) ↔ 0 ≤ x ∧ x < size) ∧
      (∀ (j : Nat) (r : RangeSpec), rs[j]? = some r → j + 1 < rs.length →
        r.stop - r.start + 1 = Int.tdiv size wc) := by
  have hwne : wc ≠ 0 := by omega
  set p := Int.tdiv size wc with hpdef
  have hpe : p = size / wc := Int.tdiv_eq_ediv (by omega) (by omega)
  set N := wc.toNat with hNdef
  have hNc : (N : Int) = wc := by omega
  have hN1 : 1 ≤ N := by omega
  have hp0 : 0 ≤ p := by rw [hpe]; exact Int.ediv_nonneg (by omega) (by omega)
  have hsum : wc * (size / wc) + size % wc = size := Int.ediv_add_emod size wc
  have hr0 : 0 ≤ size % wc := Int.emod_nonneg size hwne
  have hNp : (N : Int) * p ≤ size := by rw [hNc, hpe]; omega
  refine ⟨partitionFrom size p 0 N, ?_, ?_, ?_, ?_, ?_, ?_, ?_, ?_⟩
  · simp [parallelDownloadRanges, hwne, hpdef, hNdef]
  · exact partitionFrom_length size p N 0
  · intro r0 h0
    rw [partitionFrom_getElem size p N 0 0 (by omega)] at h0
    simp only [Option.some.injEq] at h0
    rw [← h0]
    simp
  · intro rl hl
    rw [partitionFrom_getElem size p N 0 (N - 1) (by omega)] at hl
    simp only [Option.some.injEq] at hl
    rw [← hl]
    simp [if_pos (by omega : N - 1 + 1 = N)]
  · intro j r r2 hj hj2
    have hlt : j + 1 < N := by
      obtain ⟨hh, -⟩ := List.getElem?_eq_some.mp hj2
      simpa [partitionFrom_length] using hh
    rw [partitionFrom_getElem size p N 0 j (by omega)] at hj
    rw [partitionFrom_getElem size p N 0 (j + 1) hlt] at hj2
    simp only [Option.some.injEq] at hj hj2
    rw [← hj, ← hj2]
    simp only [if_neg (by omega : ¬ j + 1 = N)]
    push_cast
    ring
  · intro i j ri rj x hij hi hj hxin
    have hjlt : j < N := by
      obtain ⟨hh, -⟩ := List.getElem?_eq_some.mp hj
      simpa [partitionFrom_length] using hh
    rw [partitionFrom_getElem size p N 0 i (by omega)] at hi
    rw [partitionFrom_getElem size p N 0 j hjlt] at hj
    simp only [Option.some.injEq] at hi hj
    rw [← hi] at hxin
    rw [← hj]
    rcases hxin with ⟨_, hx2⟩
    simp only [if_neg (by omega : ¬ i + 1 = N)] at hx2
    intro hin2
    rcases hin2 with ⟨hy1, _⟩
    simp only at hy1 hx2
    have hmul : ((i : Int) + 1) * p ≤ (j : Int) * p :=
      mul_le_mul_of_nonneg_right (by omega) hp0
    linarith
  · intro x
    constructor
    · rintro ⟨r, hmem, hin⟩
      obtain ⟨n, hn⟩ := List.mem_iff_getElem?.mp hmem
      have hnlt : n < N := by
        obtain ⟨hh, -⟩ := List.getElem?_eq_some.mp hn
        simpa [partitionFrom_length] using hh
      rw [partitionFrom_getElem size p N 0 n hnlt] at hn
      simp only [Option.some.injEq] at hn
      rw [← hn] at hin
      rcases hin with ⟨h1, h2⟩
      simp only at h1 h2
      have hstart0 : (0 : Int) ≤ (n : Int) * p :=
        mul_nonneg (by positivity) hp0
      constructor
      · linarith
      · by_cases hlast : n + 1 = N
        · rw [if_pos hlast] at h2; omega
        · rw [if_neg hlast] at h2
          have hmul : ((n : Int) + 1) * p ≤ (N : Int) * p :=
            mul_le_mul_of_nonneg_right (by omega) hp0
          linarith
    · rintro ⟨hx0, hxs⟩
      by_cases hA : ((N : Int) - 1) * p ≤ x
      · refine ⟨_, List.mem_iff_getElem?.mpr
          ⟨N - 1, partitionFrom_getElem size p N 0 (N - 1) (by omega)⟩, ?_, ?_⟩
        · simp only
          push_cast [Nat.cast_sub hN1]
          linarith
        · simp only [if_pos (by omega : N - 1 + 1 = N)]
          omega
      · push_neg at hA
        have hp1 : 0 < p := by
          rcases lt_or_eq_of_le hp0 with h | h
          · exact h
          · exfalso; rw [← h] at hA; simp at hA; omega
        have hxq := Int.ediv_add_emod x p
        have hxr0 : 0 ≤ x % p := Int.emod_nonneg x (by omega)
        have hxrlt : x % p < p := Int.emod_lt_of_pos x hp1
        have hql : p * (x / p) ≤ x := by omega
        have hqu : x < p * (x / p) + p := by omega
        have hq0 : 0 ≤ x / p := Int.ediv_nonneg hx0 hp0
        have hqN : x / p < (N : Int) - 1 := by
          have h1 : p * (x / p) < p * ((N : Int) - 1) := by
            calc p * (x / p) ≤ x := hql
            _ < ((N : Int) - 1) * p := hA
            _ = p * ((N : Int) - 1) := by ring
          exact lt_of_mul_lt_mul_left h1 hp0
        have hjc : ((x / p).toNat : Int) = x / p := Int.toNat_of_nonneg hq0
        have hjlt : (x / p).toNat + 1 < N := by omega
        refine ⟨_, List.mem_iff_getElem?.mpr
          ⟨(x / p).toNat, partitionFrom_getElem size p N 0 (x / p).toNat (by omega)⟩,
          ?_, ?_⟩
        · simp only
          rw [hjc]
          linarith [mul_comm (x / p) p]
        · simp only [if_neg (by omega : ¬ (x / p).toNat + 1 = N)]
          rw [hjc]
          have : (x / p + 1) * p = p * (x / p) + p := by ring
          linarith
  · intro j r hj hlen
    rw [partitionFrom_length] at hlen
    rw [partitionFrom_getElem size p N 0 j (by omega)] at hj
    simp only [Option.some.injEq] at hj
    rw [← hj]
    simp only [if_neg (by omega : ¬ j + 1 = N)]
    ring

/-- Witness for C1 at `size = 10`, `workerCount = 4` (yielding the ranges
`[0,1], [2,3], [4,5], [6,9]`). -/
theorem C1_partition_correct_witness :
    ∃ rs, parallelDownloadRanges 10 4 = some rs ∧
      rs.length = (4 : Int).toNat ∧
      (∀ r0, rs[0]? = some r0 → r0.start = 0) ∧
      (∀ rl, rs[(4 : Int).toNat - 1]? = some rl → rl.stop = 10 - 1) ∧
      (∀ (j : Nat) (r r2 : RangeSpec),
        rs[j]? = some r → rs[j + 1]? = some r2 → r2.start = r.stop + 1) ∧
      (∀ (i j : Nat) (ri rj : RangeSpec) (x : Int), i < j →
        rs[i]? = some ri → rs[j]? = some rj →
        inRange ri x → ¬ inRange rj x) ∧
      (∀ x : Int, (∃ r ∈ rs, inRange r x) ↔ 0 ≤ x ∧ x < 10) ∧
      (∀ (j : Nat) (r : RangeSpec), rs[j]? = some r → j + 1 < rs.length →
        r.stop - r.start + 1 = Int.tdiv 10 4) :=
  C1_partition_correct 10 4 (by decide) (by decide)

/-- C2 (code defect): the `select`/`ctx.Done()` branch of `writeRange`
(src/down.go lines 131-133) returns plain `nil`, so a worker canceled before
end-of-stream produces exactly the same `nil` outcome as a worker that
completed and size-verified its range — cancellation is NOT surfaced as a
distinct outcome.  First conjunct: a context observed done on the first
iteration, with the whole 9-byte range still unwritten, returns the nil
error (`some none`).  Second conjunct: a genuinely completed 2-byte range
also returns the nil error.  The two outcomes are identical. -/
theorem C2_canceled_worker_returns_nil :
    (writeLoop 3 9 0 0
        [{ ctxDone := true, nr := 0, readErr := none, nw := 0, writeFail := false }]).1
      = some none
    ∧ (writeLoop 3 2 0 0
        [{ ctxDone := false, nr := 2, readErr := some ReadEnd.eof, nw := 2,
           writeFail := false }]).1
      = some none :=
  ⟨rfl, rfl⟩

/-- C3 counterexample: a response with no Content-Length at all, so the total
length is undeterminable.  The probe returns the error `get file size
failed`, yet `ParallelDownload` (src/down.go lines 71-76) reacts to every
probe error by invoking the sequential fallback `Download` — contradicting
the claim that on an undeterminable length the call fails with a probe error
and the fallback path is not invoked. -/
theorem C3_counterexample :
    getInfoAndCheckRangeSupport ([] : Header)
        = some (ProbeResult.errNoLength ([] : Header))
    ∧ parallelDownloadDispatch ([] : Header) = Dispatch.fallback :=
  ⟨rfl, rfl⟩

/-- C3 amended: `ParallelDownload` takes the sequential fallback exactly when
the probe returns a non-nil error — including the undeterminable-length
error; no probe error aborts the download without a fallback attempt. -/
theorem C3_amended_fallback_iff_probe_error (h : Header) :
    parallelDownloadDispatch h = Dispatch.fallback ↔
      ∃ r, getInfoAndCheckRangeSupport h = some r ∧ r.isError = true := by
  cases hr : getInfoAndCheckRangeSupport h with
  | none => simp [parallelDownloadDispatch, hr]
  | some r =>
    cases r with
    | ok size hh =>
      simp only [parallelDownloadDispatch, hr]
      constructor
      · intro hc
        split at hc <;> cases hc
      · rintro ⟨r2, hr2, hbad⟩
        cases hr2
        exact absurd hbad (by simp [ProbeResult.isError])
    | errNoLength hh => simp [parallelDownloadDispatch, hr, ProbeResult.isError]
    | errParse hh => simp [parallelDownloadDispatch, hr, ProbeResult.isError]
    | errNoAcceptRanges sz hh =>
      simp [parallelDownloadDispatch, hr, ProbeResult.isError]
    | errNotBytes sz hh => simp [parallelDownloadDispatch, hr, ProbeResult.isError]

/-- Witness for the amended C3 at a concrete header whose Content-Length does
not parse: the probe errs and the fallback is taken. -/
theorem C3_amended_witness :
    parallelDownloadDispatch [("Content-Length", ["abc"])] = Dispatch.fallback ↔
      ∃ r, getInfoAndCheckRangeSupport [("Content-Length", ["abc"])] = some r ∧
        r.isError = true :=
  C3_amended_fallback_iff_probe_error _

/-- C4 counterexample: a probe that fully succeeds with declared size 0.
`ParallelDownload` (src/down.go lines 82-84) then returns
`errors.New("get file size failed")` — a non-nil error — rather than a
successful zero-length download, contradicting the claim. -/
theorem C4_counterexample :
    getInfoAndCheckRangeSupport [("Content-Length", ["0"]), ("Accept-Ranges", ["bytes"])]
        = some (ProbeResult.ok 0 [("Content-Length", ["0"]), ("Accept-Ranges", ["bytes"])])
    ∧ parallelDownloadDispatch [("Content-Length", ["0"]), ("Accept-Ranges", ["bytes"])]
        = Dispatch.sizeError :=
  ⟨rfl, rfl⟩

/-- C4 amended: a probed size of zero (or any non-positive size) is rejected
with the error `get file size failed` before any worker is spawned; it is an
error return, not a successful zero-length download. -/
theorem C4_amended_zero_size_is_error (h : Header) (size : Int)
    (hp : getInfoAndCheckRangeSupport h = some (ProbeResult.ok size h))
    (hz : size ≤ 0) :
    parallelDownloadDispatch h = Dispatch.sizeError := by
  simp [parallelDownloadDispatch, hp, hz]

/-- Witness for the amended C4 at the size-0 header. -/
theorem C4_amended_witness :
    parallelDownloadDispatch [("Content-Length", ["0"]), ("Accept-Ranges", ["bytes"])]
        = Dispatch.sizeError :=
  C4_amended_zero_size_is_error _ 0 rfl (by decide)

theorem chunkTotal_nonneg (script : List Step) : 0 ≤ chunkTotal script :=
  Int.natCast_nonneg _

theorem chunkTotal_cons (s : Step) (rest : List Step) :
    chunkTotal (s :: rest) = (s.nr : Int) + chunkTotal rest := by
  simp [chunkTotal]

/-- Every positioned write issued by the `writeRange` loop lies within
`[start, start + total bytes the stream delivers)`: the write offset starts
at the current `start` and advances by exactly the bytes written, and the
loop never clamps a chunk against the range end. -/
theorem writeLoop_writes_bounded (part size : Int) :
    ∀ (script : List Step) (start written : Int),
      ∀ w ∈ (writeLoop part size start written script).2,
        start ≤ w.off ∧ w.off + (w.len : Int) ≤ start + chunkTotal script := by
  intro script
  induction script with
  | nil => intro start written w hw; simp [writeLoop] at hw
  | cons s rest ih =>
    obtain ⟨cd, nr, re, nw, wf⟩ := s
    intro start written w hw
    have hct := chunkTotal_nonneg rest
    rw [chunkTotal_cons]
    dsimp only
    cases cd with
    | true => simp [writeLoop] at hw
    | false =>
      by_cases hnr : 0 < nr
      · cases wf with
        | true =>
          simp [writeLoop, hnr] at hw
          subst hw
          refine ⟨le_rfl, ?_⟩
          show start + (nr : Int) ≤ start + ((nr : Int) + chunkTotal rest)
          omega
        | false =>
          by_cases hne : nr ≠ nw
          · simp [writeLoop, hnr, hne] at hw
            subst hw
            refine ⟨le_rfl, ?_⟩
            show start + (nr : Int) ≤ start + ((nr : Int) + chunkTotal rest)
            omega
          · push_neg at hne
            subst hne
            cases re with
            | none =>
              simp only [writeLoop, Bool.false_eq_true, if_false, if_pos hnr, ne_eq,
                not_true_eq_false, List.mem_cons] at hw
              rcases hw with hw | hw
              · subst hw
                refine ⟨le_rfl, ?_⟩
                show start + (nr : Int) ≤ start + ((nr : Int) + chunkTotal rest)
                omega
              · obtain ⟨hb1, hb2⟩ := ih _ _ w hw
                constructor <;> omega
            | some re2 =>
              cases re2 <;>
              · simp [writeLoop, hnr] at hw
                subst hw
                refine ⟨le_rfl, ?_⟩
                show start + (nr : Int) ≤ start + ((nr : Int) + chunkTotal rest)
                omega
      · cases re with
        | none =>
          simp only [writeLoop, Bool.false_eq_true, if_false, if_neg hnr] at hw
          obtain ⟨hb1, hb2⟩ := ih _ _ w hw
          constructor <;> omega
        | some re2 => cases re2 <;> simp [writeLoop, hnr] at hw

/-- C5 counterexample: a worker assigned the one-byte range `[0, 0]` whose
response body delivers 2 bytes.  `writeRange` issues the positioned write
`WriteAt(buf[0:2], 0)`, covering offsets 0 and 1 — outside the assigned
`[0, 0]`.  Nothing in the loop bounds a chunk by the range end, so the
claimed invariant fails for over-long response streams (the code never even
checks the response status, so a server ignoring the Range header triggers
exactly this). -/
theorem C5_counterexample :
    (writeLoop 0 2 0 0
        [{ ctxDone := false, nr := 2, readErr := some ReadEnd.eof, nw := 2,
           writeFail := false }]).2
      = [{ off := 0, len := 2 }]
    ∧ ¬ writeWithin { off := 0, len := 2 } 0 0 :=
  ⟨rfl, by decide⟩

/-- C5 amended: every positioned write lands within the assigned inclusive
range `[start, stop]` PROVIDED the response stream delivers at most
`stop - start + 1` bytes in total; without that precondition the writes are
only guaranteed to stay in `[start, start + bytes delivered)`. -/
theorem C5_amended_writes_within (part size start written stop : Int)
    (script : List Step)
    (hb : start + chunkTotal script ≤ stop + 1) :
    ∀ w ∈ (writeLoop part size start written script).2, writeWithin w start stop := by
  intro w hw
  obtain ⟨h1, h2⟩ := writeLoop_writes_bounded part size script start written w hw
  exact ⟨h1, by omega⟩

/-- Witness for the amended C5: a 2-byte range `[0, 1]` receiving exactly 2
bytes keeps its single write inside the range. -/
theorem C5_amended_witness :
    (0 : Int) + chunkTotal
        [{ ctxDone := false, nr := 2, readErr := some ReadEnd.eof, nw := 2,
           writeFail := false }] ≤ 1 + 1
    ∧ ∀ w ∈ (writeLoop 0 2 0 0
        [{ ctxDone := false, nr := 2, readErr := some ReadEnd.eof, nw := 2,
           writeFail := false }]).2, writeWithin w 0 1 :=
  ⟨by decide, C5_amended_writes_within 0 2 0 0 1 _ (by decide)⟩

/-- C6: outcome of one decisive loop iteration of `writeRange` (src/down.go
lines 136-161), the context not being done.  In order: (a) a chunk was read
and its positioned write wrote fewer bytes than read (`nr != nw`, no
`WriteAt` error): the loop returns the part-indexed `write error: short
write`; (b) whenever the write phase passed, a non-EOF read error returns
the part-indexed `download error` wrapping the stream error; (c) at EOF, if
the accumulated `written` differs from the range's declared content length
`size` (parsed from the range response by `getRangeBody`), the loop returns
the part-indexed `download error: size not match`; (d) at EOF with
`written = size` it returns nil — `Completed`. -/
theorem C6_streaming_outcomes (part size start written : Int) (s : Step)
    (rest : List Step) (hctx : s.ctxDone = false) :
    (0 < s.nr → s.writeFail = false → s.nw < s.nr →
      (writeLoop part size start written (s :: rest)).1
        = some (some { part := part, kind := ErrKind.shortWrite })) ∧
    ((0 < s.nr → s.writeFail = false ∧ s.nw = s.nr) →
      s.readErr = some ReadEnd.ioErr →
      (writeLoop part size start written (s :: rest)).1
        = some (some { part := part, kind := ErrKind.stream })) ∧
    ((0 < s.nr → s.writeFail = false ∧ s.nw = s.nr) →
      s.readErr = some ReadEnd.eof → writtenAfter written s ≠ size →
      (writeLoop part size start written (s :: rest)).1
        = some (some { part := part, kind := ErrKind.sizeMismatch })) ∧
    ((0 < s.nr → s.writeFail = false ∧ s.nw = s.nr) →
      s.readErr = some ReadEnd.eof → writtenAfter written s = size →
      (writeLoop part size start written (s :: rest)).1 = some none) := by
  obtain ⟨cd, nr, re, nw, wf⟩ := s
  dsimp only at hctx ⊢
  subst hctx
  refine ⟨?_, ?_, ?_, ?_⟩
  · intro hnr hwf hlt
    subst hwf
    simp only [writeLoop, Bool.false_eq_true, if_false, if_pos hnr,
      if_pos (by omega : nr ≠ nw)]
  · intro hok hre
    subst hre
    by_cases hnr : 0 < nr
    · obtain ⟨hwf, hnw⟩ := hok hnr
      subst hwf
      subst hnw
      simp [writeLoop, hnr]
    · simp [writeLoop, hnr]
  · intro hok hre hne
    subst hre
    by_cases hnr : 0 < nr
    · obtain ⟨hwf, hnw⟩ := hok hnr
      subst hwf
      subst hnw
      simp [writeLoop, hnr, hne.symm]
    · simp [writeLoop, hnr, hne.symm]
  · intro hok hre heq
    subst hre
    by_cases hnr : 0 < nr
    · obtain ⟨hwf, hnw⟩ := hok hnr
      subst hwf
      subst hnw
      simp [writeLoop, hnr, heq]
    · simp [writeLoop, hnr, heq]

/-- Witness for C6, short-write branch: 2 bytes read, 1 byte written. -/
theorem C6_streaming_outcomes_witness :
    (writeLoop 0 9 0 0
        [{ ctxDone := false, nr := 2, readErr := none, nw := 1,
           writeFail := false }]).1
      = some (some { part := 0, kind := ErrKind.shortWrite }) :=
  (C6_streaming_outcomes 0 9 0 0
      { ctxDone := false, nr := 2, readErr := none, nw := 1, writeFail := false }
      [] rfl).1 (by decide) rfl (by decide)

/-- C7: probe range-support characterization.  First conjunct: the probe
returns without error — usable range support — if and only if the response
has a Content-Length header whose first value parses as an integer AND an
Accept-Ranges header whose first value is exactly `bytes`.  Second conjunct:
when Accept-Ranges is present with a non-`bytes` first value, the result is
the `unsupported` error while the parsed size is still returned alongside
it. -/
theorem C7_probe_characterization (h : Header) :
    ((∃ size, getInfoAndCheckRangeSupport h = some (ProbeResult.ok size h)) ↔
      ((∃ v rest n, h.lookup "Content-Length" = some (v :: rest) ∧
          parseInt64 v = some n) ∧
       (∃ rest2, h.lookup "Accept-Ranges" = some ("bytes" :: rest2)))) ∧
    (∀ (v : String) (rest : List String) (n : Int) (a : String)
        (arest : List String),
      h.lookup "Content-Length" = some (v :: rest) → parseInt64 v = some n →
      h.lookup "Accept-Ranges" = some (a :: arest) → a ≠ "bytes" →
      getInfoAndCheckRangeSupport h = some (ProbeResult.errNotBytes n h)) := by
  constructor
  · constructor
    · rintro ⟨size, hok⟩
      cases hcl : h.lookup "Content-Length" with
      | none => simp [getInfoAndCheckRangeSupport, hcl] at hok
      | some vs =>
        cases vs with
        | nil => simp [getInfoAndCheckRangeSupport, hcl] at hok
        | cons v vrest =>
          cases hpv : parseInt64 v with
          | none => simp [getInfoAndCheckRangeSupport, hcl, hpv] at hok
          | some n =>
            cases har : h.lookup "Accept-Ranges" with
            | none => simp [getInfoAndCheckRangeSupport, hcl, hpv, har] at hok
            | some as2 =>
              cases as2 with
              | nil => simp [getInfoAndCheckRangeSupport, hcl, hpv, har] at hok
              | cons a arest =>
                by_cases hab : a = "bytes"
                · subst hab
                  exact ⟨⟨v, vrest, n, rfl, hpv⟩, ⟨arest, rfl⟩⟩
                · simp [getInfoAndCheckRangeSupport, hcl, hpv, har, hab] at hok
    · rintro ⟨⟨v, rest, n, hcl, hpv⟩, ⟨rest2, har⟩⟩
      exact ⟨n, by simp [getInfoAndCheckRangeSupport, hcl, hpv, har]⟩
  · intro v rest n a arest hcl hpv har hab
    simp [getInfoAndCheckRangeSupport, hcl, hpv, har, hab]

/-- Witness for C7 at a concrete header advertising `Accept-Ranges: none`
with Content-Length 10: the probe reports the non-bytes error carrying the
parsed size 10. -/
theorem C7_probe_characterization_witness :
    getInfoAndCheckRangeSupport [("Content-Length", ["10"]), ("Accept-Ranges", ["none"])]
      = some (ProbeResult.errNotBytes 10
          [("Content-Length", ["10"]), ("Accept-Ranges", ["none"])]) :=
  (C7_probe_characterization
      [("Content-Length", ["10"]), ("Accept-Ranges", ["none"])]).2
    "10" [] 10 "none" [] rfl rfl rfl (by decide)

/-- C8 counterexample: `ParallelDownload` contains no workerCount
validation.  With `workerCount = 0` the division `file_size / worker_count`
(src/down.go line 99) is evaluated with a zero divisor — a Go runtime panic,
modelled as `none` — so the division is NOT protected by any prior check;
and with `workerCount = -1` the call is not rejected either: the loop spawns
zero workers (`errGroup.Wait()` then returns nil, i.e. success). -/
theorem C8_counterexample :
    parallelDownloadRanges 10 0 = none ∧ parallelDownloadRanges 10 (-1) = some [] :=
  ⟨rfl, rfl⟩

/-- C8 amended: no `workerCount ≥ 1` validation exists; for every
`workerCount < 1` the call still reaches the partition arithmetic:
`workerCount = 0` evaluates the division with a zero divisor (runtime
panic), and every negative `workerCount` yields zero ranges — the call then
completes without error, having downloaded nothing. -/
theorem C8_amended_no_validation (size wc : Int) (hw : wc < 1) :
    parallelDownloadRanges size wc = if wc = 0 then none else some [] := by
  by_cases h : wc = 0
  · simp [parallelDownloadRanges, h]
  · have ht : wc.toNat = 0 := by omega
    simp [parallelDownloadRanges, h, ht, partitionFrom]

/-- Witness for the amended C8 at `workerCount = -7`. -/
theorem C8_amended_witness :
    parallelDownloadRanges 10 (-7) = if (-7 : Int) = 0 then none else some [] :=
  C8_amended_no_validation 10 (-7) (by decide)

theorem errgroupWait_keeps_error (e : WErr) :
    ∀ l : List (Option WErr),
      l.foldl (fun acc r => match acc with | some x => some x | none => r)
        (some e) = some e
  | [] => rfl
  | _ :: rest => errgroupWait_keeps_error e rest

/-- C9: fail-fast aggregation.  `errGroup.Wait` consumes the return value of
every launched worker — it returns only after all of them have terminated —
and when the workers that completed before the first failure all returned
nil, the overall result of `ParallelDownload` is exactly that first non-nil
worker error: the call returns a non-nil error and every later peer error in
`post` is discarded. -/
theorem C9_fail_fast (pre post : List (Option WErr)) (e : WErr)
    (hpre : ∀ x ∈ pre, x = none) :
    errgroupWait (pre ++ some e :: post) = some e := by
  induction pre with
  | nil => exact errgroupWait_keeps_error e post
  | cons x xs ih =>
    have hx : x = none := hpre x (by simp)
    subst hx
    exact ih (fun y hy => hpre y (by simp [hy]))

/-- Witness for C9: one clean worker, then a stream failure in part 2, then
a short-write failure in part 0 racing behind it — the aggregate is the part
2 stream error. -/
theorem C9_fail_fast_witness :
    errgroupWait [none, some { part := 2, kind := ErrKind.stream },
        some { part := 0, kind := ErrKind.shortWrite }]
      = some { part := 2, kind := ErrKind.stream } :=
  C9_fail_fast [none] [some { part := 0, kind := ErrKind.shortWrite }]
    { part := 2, kind := ErrKind.stream } (by decide)

/-- C10: the unchecked `resp.Header["Content-Length"][0]` access in
`getRangeBody` (src/down.go line 178) is in-bounds — the worker obtains a
value and can proceed — exactly when the range response carries a
Content-Length header with at least one value; otherwise the indexing
panics. -/
theorem C10_range_content_length_precondition (h : Header) :
    (getRangeBodySize h).isSome = true ↔
      ∃ v rest, h.lookup "Content-Length" = some (v :: rest) := by
  unfold getRangeBodySize
  cases hcl : h.lookup "Content-Length" with
  | none => simp
  | some vs =>
    cases vs with
    | nil => simp
    | cons v rest =>
      simp only [Option.isSome_some, true_iff]
      exact ⟨v, rest, rfl⟩

/-- Witness for C10 at a concrete range-response header. -/
theorem C10_range_content_length_witness :
    (getRangeBodySize [("Content-Length", ["4"])]).isSome = true ↔
      ∃ v rest, ([("Content-Length", ["4"])] : Header).lookup "Content-Length"
        = some (v :: rest) :=
  C10_range_content_length_precondition _

end ParallelDownload
